import Mathlib

/-
Verification of the fust client against its specification.

The development shallowly embeds the core of the repository:
  * the playback progress clock (`Progress`, src/player.rs, duplicated in
    src/app.rs),
  * the wire-frame codec (`read_response`, src/rpc.rs and src/app.rs),
  * the push-event application logic (`AppInner::on_message`, src/app.rs),
  * the full-sync poll (`App::sync_player_status`, src/app.rs).

Modelling conventions:
  * Wall-clock instants (`SystemTime`) and durations (`Duration`) are exact
    rationals measured in seconds.  A `Duration` is nonnegative by type in
    the source; theorems carry the corresponding `0 ≤ _` facts.
    `SystemTime::elapsed().unwrap()` panics when the clock moved backwards,
    so theorems reading the clock at instant `now` assume `ts ≤ now`.
  * Byte streams are `List Char` at byte granularity; status lines and
    bodies in every claim are ASCII.  `String::from_utf8(...).unwrap()` is
    the identity on this representation.
  * Fallible operations return `Option`/`Except`; a `.unwrap()`/`panic!`
    in the source becomes `none`/an error value.
  * JSON payloads are parsed by a fuel-based parser for the JSON fragment
    serde_json accepts; numbers are exact rationals (the claims only use
    numbers that are exact in `f64`).
-/

/-- Playback progress clock state, from `Progress` in src/player.rs lines
44-50 (the copy in src/app.rs lines 125-131 is identical).  `ts` is the
anchor instant, `position` the anchor position; `paused_ts` is written by
`pause` and never read, exactly as in the source. -/
structure Progress where
  ts : ℚ
  position : ℚ
  paused : Bool
  paused_ts : ℚ
  deriving DecidableEq, Repr

namespace Progress

/-- `Progress::default()` (src/player.rs lines 52-62): both timestamps are
the current instant, position 0, not paused. -/
def default (now : ℚ) : Progress :=
  { ts := now, position := 0, paused := false, paused_ts := now }

/-- `Progress::on_seeked` (src/player.rs lines 65-68): re-anchor at the
given position, leaving the paused flag unchanged. -/
def on_seeked (s : Progress) (position now : ℚ) : Progress :=
  { s with ts := now, position := position }

/-- `Progress::current` (src/player.rs lines 83-89): the frozen position
when paused, otherwise the anchor position plus the wall-clock time since
the anchor instant.  The source computes the elapsed time with
`self.ts.elapsed().unwrap()`, which requires `ts ≤ now`. -/
def current (s : Progress) (now : ℚ) : ℚ :=
  if s.paused then s.position else s.position + (now - s.ts)

/-- `Progress::pause` (src/player.rs lines 70-75): freeze the position
computed by `current`, then overwrite both timestamps with now. -/
def pause (s : Progress) (now : ℚ) : Progress :=
  { s with position := s.current now, paused_ts := now, ts := now, paused := true }

/-- `Progress::resume` (src/player.rs lines 77-81): recompute the position
via `current`, then overwrite the anchor instant and clear the flag. -/
def resume (s : Progress) (now : ℚ) : Progress :=
  { s with position := s.current now, ts := now, paused := false }

end Progress

/-- One clock transition of §4.4, used to quantify over call sequences. -/
inductive PEvent
  | seek (p : ℚ)
  | pause
  | resume
  deriving DecidableEq, Repr

/-- Apply one timestamped transition to the clock. -/
def applyEvent (s : Progress) : PEvent × ℚ → Progress
  | (.seek p, t) => s.on_seeked p t
  | (.pause, t) => s.pause t
  | (.resume, t) => s.resume t

/-- Run a timestamped call sequence left to right. -/
def runTrace (s : Progress) : List (PEvent × ℚ) → Progress
  | [] => s
  | e :: evs => runTrace (applyEvent s e) evs

/-- Well-formed call sequence: call instants are nondecreasing, none
earlier than `t0` (the current anchor instant) and none later than `tEnd`,
and every seeked-to position is nonnegative (it is a `Duration` in the
source). -/
def wfTrace (t0 tEnd : ℚ) : List (PEvent × ℚ) → Bool
  | [] => decide (t0 ≤ tEnd)
  | (e, t) :: evs =>
    decide (t0 ≤ t) && (match e with | .seek p => decide (0 ≤ p) | _ => true)
      && wfTrace t tEnd evs

/-- A well-formed call sequence keeps the stored anchor position
nonnegative and leaves the anchor instant no later than `tEnd`. -/
theorem runTrace_inv : ∀ (evs : List (PEvent × ℚ)) (s : Progress) (tEnd : ℚ),
    0 ≤ s.position → wfTrace s.ts tEnd evs = true →
    0 ≤ (runTrace s evs).position ∧ (runTrace s evs).ts ≤ tEnd := by
  intro evs
  induction evs with
  | nil =>
    intro s tEnd h0 hwf
    simp only [wfTrace, decide_eq_true_eq] at hwf
    exact ⟨h0, hwf⟩
  | cons e rest ih =>
    intro s tEnd h0 hwf
    obtain ⟨ev, t⟩ := e
    simp only [wfTrace, Bool.and_eq_true, decide_eq_true_eq] at hwf
    obtain ⟨⟨ht, hev⟩, hrest⟩ := hwf
    have hstep : runTrace s ((ev, t) :: rest) = runTrace (applyEvent s (ev, t)) rest := rfl
    rw [hstep]
    cases ev with
    | seek p =>
      have hp : 0 ≤ p := by simpa using hev
      exact ih (applyEvent s (.seek p, t)) tEnd
        (by simpa [applyEvent, Progress.on_seeked] using hp)
        (by simpa [applyEvent, Progress.on_seeked] using hrest)
    | pause =>
      have hcur : 0 ≤ s.current t := by
        by_cases hp : s.paused <;> simp [Progress.current, hp] <;> linarith
      exact ih (applyEvent s (.pause, t)) tEnd
        (by simpa [applyEvent, Progress.pause] using hcur)
        (by simpa [applyEvent, Progress.pause] using hrest)
    | resume =>
      have hcur : 0 ≤ s.current t := by
        by_cases hp : s.paused <;> simp [Progress.current, hp] <;> linarith
      exact ih (applyEvent s (.resume, t)) tEnd
        (by simpa [applyEvent, Progress.resume] using hcur)
        (by simpa [applyEvent, Progress.resume] using hrest)

/-- C1: `current` returns the frozen anchor position when paused and the
anchor position plus elapsed wall-clock time otherwise; `pause` and
`resume` both recompute the anchor position via `current` before
overwriting the anchor instant with now; and after `on_seeked 30` followed
immediately by `resume`, reading 5 seconds later yields exactly 35. -/
theorem progress_clock_semantics (s : Progress) (t : ℚ) (_h : s.ts ≤ t) :
    Progress.current s t = (if s.paused then s.position else s.position + (t - s.ts))
    ∧ (Progress.pause s t).position = Progress.current s t
    ∧ (Progress.pause s t).ts = t
    ∧ (Progress.resume s t).position = Progress.current s t
    ∧ (Progress.resume s t).ts = t
    ∧ Progress.current (Progress.resume (Progress.on_seeked s 30 t) t) (t + 5) = 35 := by
  refine ⟨rfl, rfl, rfl, rfl, rfl, ?_⟩
  by_cases hp : s.paused <;>
    simp [Progress.current, Progress.resume, Progress.on_seeked, hp] <;> ring

/-- Witness for C1 at concrete inputs. -/
theorem progress_clock_semantics_witness :
    Progress.current (Progress.resume (Progress.on_seeked (Progress.default 0) 30 1) 1) (1 + 5)
      = 35 :=
  (progress_clock_semantics (Progress.default 0) 1 (by decide)).2.2.2.2.2

/-- C3: over any well-formed sequence of `on_seeked` (with nonnegative
position), `pause` and `resume` calls, the current position is nonnegative,
and while the clock is not paused two successive reads with no intervening
call are nondecreasing. -/
theorem progress_clock_invariant (s : Progress) (evs : List (PEvent × ℚ)) (t1 t2 : ℚ)
    (h0 : 0 ≤ s.position) (hwf : wfTrace s.ts t1 evs = true) (h12 : t1 ≤ t2) :
    0 ≤ Progress.current (runTrace s evs) t1
    ∧ ((runTrace s evs).paused = false →
        Progress.current (runTrace s evs) t1 ≤ Progress.current (runTrace s evs) t2) := by
  obtain ⟨hpos, hts⟩ := runTrace_inv evs s t1 h0 hwf
  constructor
  · by_cases hp : (runTrace s evs).paused <;>
      simp [Progress.current, hp] <;> linarith
  · intro hp
    simp only [Progress.current, hp, if_neg Bool.false_ne_true]
    linarith

/-- Witness for C3 on a concrete seek-pause-resume trace. -/
theorem progress_clock_invariant_witness :
    0 ≤ Progress.current
        (runTrace (Progress.default 0) [(PEvent.seek 3, 1), (PEvent.pause, 2), (PEvent.resume, 4)]) 5
    ∧ ((runTrace (Progress.default 0)
          [(PEvent.seek 3, 1), (PEvent.pause, 2), (PEvent.resume, 4)]).paused = false →
        Progress.current
            (runTrace (Progress.default 0)
              [(PEvent.seek 3, 1), (PEvent.pause, 2), (PEvent.resume, 4)]) 5
          ≤ Progress.current
              (runTrace (Progress.default 0)
                [(PEvent.seek 3, 1), (PEvent.pause, 2), (PEvent.resume, 4)]) 6) :=
  progress_clock_invariant (Progress.default 0)
    [(PEvent.seek 3, 1), (PEvent.pause, 2), (PEvent.resume, 4)] 5 6
    (by decide) (by decide) (by decide)

/-- C9: `pause` is idempotent on the observed position: after a second
`pause` the value returned by `current` is unchanged (the second call
freezes the already-frozen value). -/
theorem pause_idempotent (s : Progress) (t1 t2 u1 u2 : ℚ) (_h : s.ts ≤ t1) :
    Progress.current (Progress.pause (Progress.pause s t1) t2) u2
      = Progress.current (Progress.pause s t1) u1 := rfl

/-- Witness for C9 at concrete inputs. -/
theorem pause_idempotent_witness :
    Progress.current (Progress.pause (Progress.pause (Progress.default 0) 1) 2) 3
      = Progress.current (Progress.pause (Progress.default 0) 1) 4 :=
  pause_idempotent (Progress.default 0) 1 2 4 3 (by decide)

/-- ASCII whitespace recognised by `str::split_whitespace` (the status
lines of the protocol are ASCII, so the Unicode-only whitespace cases of
`char::is_whitespace` never occur). -/
def isWS (c : Char) : Bool :=
  c = ' ' || c = '\t' || c = '\n' || c = '\r' || c = '\x0b' || c = '\x0c'

/-- `BufRead::read_line`: consume bytes up to and including the first
newline, or the whole stream when no newline occurs. -/
def takeLine : List Char → List Char × List Char
  | [] => ([], [])
  | c :: cs =>
    if c = '\n' then ([c], cs)
    else
      let p := takeLine cs
      (c :: p.1, p.2)

/-- Accumulator worker for `splitWS`. -/
def splitWSAux : List Char → List Char → List (List Char)
  | [], acc => if acc = [] then [] else [acc.reverse]
  | c :: cs, acc =>
    if isWS c then
      if acc = [] then splitWSAux cs [] else acc.reverse :: splitWSAux cs []
    else splitWSAux cs (c :: acc)

/-- `str::split_whitespace`: the maximal runs of non-whitespace bytes. -/
def splitWS (cs : List Char) : List (List Char) := splitWSAux cs []

/-- Decimal digit character. -/
def digitChar : Nat → Char
  | 0 => '0'
  | 1 => '1'
  | 2 => '2'
  | 3 => '3'
  | 4 => '4'
  | 5 => '5'
  | 6 => '6'
  | 7 => '7'
  | 8 => '8'
  | _ => '9'

/-- Fuelled decimal printer; any `fuel > n` suffices. -/
def natDigitsAux : Nat → Nat → List Char
  | 0, _ => []
  | fuel + 1, n =>
    if n < 10 then [digitChar n]
    else natDigitsAux fuel (n / 10) ++ [digitChar (n % 10)]

/-- The decimal digits of `n`, as a peer following the wire format of
§4.1 writes the `<bodyLength>` field of a status line. -/
def natDigits (n : Nat) : List Char := natDigitsAux (n + 1) n

/-- Numeric value of a most-significant-first string of decimal digits. -/
def digitsToNat (ds : List Char) : Nat :=
  ds.foldl (fun a c => a * 10 + (c.toNat - 48)) 0

/-- Strip one leading `+`, as `str::parse::<usize>` accepts. -/
def stripPlus (cs : List Char) : List Char :=
  match cs with
  | [] => []
  | c :: r => if c = '+' then r else c :: r

/-- `str::parse::<usize>()`: an optional leading `+`, then one or more
ASCII digits, rejecting values that overflow the 64-bit `usize`. -/
def parseUsize (cs : List Char) : Option Nat :=
  let ds := stripPlus cs
  if ds ≠ [] ∧ ds.all Char.isDigit then
    if digitsToNat ds < 2 ^ 64 then some (digitsToNat ds) else none
  else none

/-- `str::to_lowercase` restricted to ASCII, where `Char.toLower` agrees
with Rust; every tag compared in the source is ASCII. -/
def lowerStr (cs : List Char) : List Char := cs.map Char.toLower

/-- `Response` (src/rpc.rs lines 7-10): an acknowledgement frame. -/
structure Response where
  ok : Bool
  body : List Char
  deriving DecidableEq, Repr

/-- `Message` (src/rpc.rs lines 12-15): a push frame. -/
structure Message where
  topic : List Char
  body : List Char
  deriving DecidableEq, Repr

/-- `RespOrMsg` (src/rpc.rs lines 17-20). -/
inductive RespOrMsg
  | resp (r : Response)
  | msg (m : Message)
  deriving DecidableEq, Repr

/-- How `read_response` fails: `disconnected` is the
`ErrorKind::ConnectionAborted` error returned when zero bytes are read
for the status line, `ioError` the `read_exact` error propagated by `?`,
and `panicked` any of the `unwrap` panics on a malformed status line. -/
inductive ReadErr
  | disconnected
  | ioError
  | panicked
  deriving DecidableEq, Repr

/-- `read_response` (src/rpc.rs lines 22-51; the copy in src/app.rs lines
53-85 is identical): read one status line, split it on whitespace, take
the first token as the tag and the last remaining token as the body
length, read exactly `bodyLen + 2` raw bytes and truncate away the final
two without validating them, then build a `Response` when the tag
lowercases to `ack` and a `Message` (topic = second token) otherwise.
Returns the decoded frame and the unread remainder of the stream. -/
def read_response (input : List Char) : Except ReadErr (RespOrMsg × List Char) :=
  if input = [] then .error .disconnected
  else
    let line := (takeLine input).1
    let rest := (takeLine input).2
    match splitWS line with
    | [] => .error .panicked
    | ackOrMsg :: restToks =>
      match restToks.getLast? with
      | none => .error .panicked
      | some lenTok =>
        match parseUsize lenTok with
        | none => .error .panicked
        | some bodyLen =>
          if rest.length < bodyLen + 2 then .error .ioError
          else
            let body := rest.take bodyLen
            let remaining := rest.drop (bodyLen + 2)
            if lowerStr ackOrMsg = "ack".data then
              match restToks.head? with
              | none => .error .panicked
              | some w => .ok (.resp ⟨decide (lowerStr w = "ok".data), body⟩, remaining)
            else
              match restToks.head? with
              | none => .error .panicked
              | some topic => .ok (.msg ⟨topic, body⟩, remaining)

theorem digitChar_isDigit (d : Nat) : (digitChar d).isDigit = true := by
  match d with
  | 0 | 1 | 2 | 3 | 4 | 5 | 6 | 7 | 8 => decide
  | n + 9 => rfl

theorem digitChar_val (d : Nat) (h : d < 10) : (digitChar d).toNat - 48 = d := by
  interval_cases d <;> decide

theorem digit_not_ws {c : Char} (h : c.isDigit = true) : isWS c = false := by
  have h1 : c ≠ ' ' := by rintro rfl; exact absurd h (by decide)
  have h2 : c ≠ '\t' := by rintro rfl; exact absurd h (by decide)
  have h3 : c ≠ '\n' := by rintro rfl; exact absurd h (by decide)
  have h4 : c ≠ '\r' := by rintro rfl; exact absurd h (by decide)
  have h5 : c ≠ '\x0b' := by rintro rfl; exact absurd h (by decide)
  have h6 : c ≠ '\x0c' := by rintro rfl; exact absurd h (by decide)
  simp [isWS, h1, h2, h3, h4, h5, h6]

theorem not_ws_ne_nl {c : Char} (h : isWS c = false) : c ≠ '\n' := by
  rintro rfl; simp [isWS] at h

theorem digitsToNat_append_one (ds : List Char) (c : Char) :
    digitsToNat (ds ++ [c]) = digitsToNat ds * 10 + (c.toNat - 48) := by
  simp [digitsToNat, List.foldl_append]

theorem natDigitsAux_spec : ∀ (fuel n : Nat), n < fuel →
    natDigitsAux fuel n ≠ []
    ∧ (∀ c ∈ natDigitsAux fuel n, c.isDigit = true)
    ∧ digitsToNat (natDigitsAux fuel n) = n := by
  intro fuel
  induction fuel with
  | zero => intro n h; exact absurd h (Nat.not_lt_zero n)
  | succ fuel ih =>
    intro n h
    by_cases h10 : n < 10
    · refine ⟨by simp [natDigitsAux, h10], ?_, ?_⟩
      · intro c hc
        simp only [natDigitsAux, if_pos h10, List.mem_singleton] at hc
        subst hc
        exact digitChar_isDigit n
      · have : digitsToNat [digitChar n] = (digitChar n).toNat - 48 := by
          simp [digitsToNat]
        simp only [natDigitsAux, if_pos h10, this]
        exact digitChar_val n h10
    · have hlt : n / 10 < fuel := by
        have hdiv : n / 10 < n := Nat.div_lt_self (by omega) (by norm_num)
        omega
      obtain ⟨hne, hdig, hval⟩ := ih (n / 10) hlt
      refine ⟨?_, ?_, ?_⟩
      · simp [natDigitsAux, h10]
      · intro c hc
        simp only [natDigitsAux, if_neg h10, List.mem_append, List.mem_singleton] at hc
        rcases hc with hc | hc
        · exact hdig c hc
        · subst hc; exact digitChar_isDigit (n % 10)
      · simp only [natDigitsAux, if_neg h10, digitsToNat_append_one, hval,
          digitChar_val (n % 10) (Nat.mod_lt n (by omega))]
        omega

theorem natDigits_ne_nil (n : Nat) : natDigits n ≠ [] :=
  (natDigitsAux_spec (n + 1) n (Nat.lt_succ_self n)).1

theorem natDigits_isDigit (n : Nat) : ∀ c ∈ natDigits n, c.isDigit = true :=
  (natDigitsAux_spec (n + 1) n (Nat.lt_succ_self n)).2.1

theorem natDigits_not_ws (n : Nat) : ∀ c ∈ natDigits n, isWS c = false :=
  fun c hc => digit_not_ws (natDigits_isDigit n c hc)

theorem digitsToNat_natDigits (n : Nat) : digitsToNat (natDigits n) = n :=
  (natDigitsAux_spec (n + 1) n (Nat.lt_succ_self n)).2.2

theorem parseUsize_natDigits (n : Nat) (h : n < 2 ^ 64) :
    parseUsize (natDigits n) = some n := by
  obtain ⟨c, t, hct⟩ : ∃ c t, natDigits n = c :: t := by
    cases hd : natDigits n with
    | nil => exact absurd hd (natDigits_ne_nil n)
    | cons c t => exact ⟨c, t, rfl⟩
  have hcd : c.isDigit = true := natDigits_isDigit n c (by simp [hct])
  have hcp : c ≠ '+' := by rintro rfl; exact absurd hcd (by decide)
  have hstrip : stripPlus (natDigits n) = natDigits n := by
    rw [hct]; simp [stripPlus, hcp]
  have hall : (natDigits n).all Char.isDigit = true := by
    rw [List.all_eq_true]
    exact natDigits_isDigit n
  unfold parseUsize
  rw [hstrip, if_pos ⟨natDigits_ne_nil n, hall⟩, digitsToNat_natDigits, if_pos h]

theorem takeLine_append (l r : List Char) (hl : ∀ c ∈ l, c ≠ '\n') :
    takeLine (l ++ '\n' :: r) = (l ++ ['\n'], r) := by
  induction l with
  | nil => simp [takeLine]
  | cons c cs ih =>
    have hc : c ≠ '\n' := hl c (by simp)
    simp only [List.cons_append, takeLine, if_neg hc]
    simp [ih (fun x hx => hl x (by simp [hx]))]

theorem splitWSAux_run (ds : List Char) (hds : ∀ c ∈ ds, isWS c = false) :
    ∀ (rest acc : List Char),
      splitWSAux (ds ++ rest) acc = splitWSAux rest (ds.reverse ++ acc) := by
  induction ds with
  | nil => intro rest acc; simp
  | cons c cs ih =>
    intro rest acc
    have hc : isWS c = false := hds c (by simp)
    simp only [List.cons_append, splitWSAux, hc, Bool.false_eq_true, if_false,
      List.reverse_cons, List.append_assoc, List.cons_append, List.nil_append]
    exact ih (fun x hx => hds x (by simp [hx])) rest (c :: acc)

theorem splitWSAux_ws_emit (c : Char) (cs acc : List Char) (hc : isWS c = true)
    (hacc : acc ≠ []) :
    splitWSAux (c :: cs) acc = acc.reverse :: splitWSAux cs [] := by
  simp [splitWSAux, hc, hacc]

theorem splitWSAux_token (tk rest : List Char) (htkne : tk ≠ [])
    (htk : ∀ c ∈ tk, isWS c = false) (c : Char) (hc : isWS c = true) :
    splitWSAux (tk ++ c :: rest) [] = tk :: splitWSAux rest [] := by
  rw [splitWSAux_run tk htk (c :: rest) [],
    splitWSAux_ws_emit c rest (tk.reverse ++ []) hc (by simp [htkne])]
  simp

theorem splitWS_three (t1 t2 t3 : List Char)
    (h1ne : t1 ≠ []) (h1 : ∀ c ∈ t1, isWS c = false)
    (h2ne : t2 ≠ []) (h2 : ∀ c ∈ t2, isWS c = false)
    (h3ne : t3 ≠ []) (h3 : ∀ c ∈ t3, isWS c = false) :
    splitWS (t1 ++ ' ' :: (t2 ++ ' ' :: (t3 ++ ['\r', '\n']))) = [t1, t2, t3] := by
  unfold splitWS
  rw [splitWSAux_token t1 _ h1ne h1 ' ' (by decide),
    splitWSAux_token t2 _ h2ne h2 ' ' (by decide),
    show t3 ++ ['\r', '\n'] = t3 ++ '\r' :: ['\n'] from rfl,
    splitWSAux_token t3 _ h3ne h3 '\r' (by decide)]
  rfl

theorem read_response_frame (tag second body rest : List Char) (t1 t2 : Char)
    (htagne : tag ≠ []) (htag : ∀ c ∈ tag, isWS c = false)
    (hsecne : second ≠ []) (hsec : ∀ c ∈ second, isWS c = false)
    (hn : body.length < 2 ^ 64) :
    read_response (tag ++ ' ' :: (second ++ ' ' :: (natDigits body.length
        ++ '\r' :: '\n' :: (body ++ t1 :: t2 :: rest))))
      = if lowerStr tag = "ack".data
        then .ok (.resp ⟨decide (lowerStr second = "ok".data), body⟩, rest)
        else .ok (.msg ⟨second, body⟩, rest) := by
  have hinput : tag ++ ' ' :: (second ++ ' ' :: (natDigits body.length
        ++ '\r' :: '\n' :: (body ++ t1 :: t2 :: rest)))
      = (tag ++ ' ' :: (second ++ ' ' :: (natDigits body.length ++ ['\r'])))
          ++ '\n' :: (body ++ t1 :: t2 :: rest) := by
    simp
  have hLnl : ∀ c ∈ tag ++ ' ' :: (second ++ ' ' :: (natDigits body.length ++ ['\r'])),
      c ≠ '\n' := by
    intro c hc
    simp only [List.mem_append, List.mem_cons, List.mem_singleton,
      List.not_mem_nil, or_false] at hc
    rcases hc with hc | rfl | hc | rfl | hc | rfl
    · exact not_ws_ne_nl (htag c hc)
    · decide
    · exact not_ws_ne_nl (hsec c hc)
    · decide
    · exact not_ws_ne_nl (natDigits_not_ws body.length c hc)
    · decide
  have htakeline : takeLine (tag ++ ' ' :: (second ++ ' ' :: (natDigits body.length
        ++ '\r' :: '\n' :: (body ++ t1 :: t2 :: rest))))
      = ((tag ++ ' ' :: (second ++ ' ' :: (natDigits body.length ++ ['\r']))) ++ ['\n'],
         body ++ t1 :: t2 :: rest) := by
    rw [hinput, takeLine_append _ _ hLnl]
  have hlineshape : (tag ++ ' ' :: (second ++ ' ' :: (natDigits body.length ++ ['\r']))) ++ ['\n']
      = tag ++ ' ' :: (second ++ ' ' :: (natDigits body.length ++ ['\r', '\n'])) := by
    simp
  have hsplit3 : splitWS ((tag ++ ' ' :: (second ++ ' ' :: (natDigits body.length ++ ['\r']))) ++ ['\n'])
      = [tag, second, natDigits body.length] := by
    rw [hlineshape]
    exact splitWS_three tag second (natDigits body.length) htagne htag hsecne hsec
      (natDigits_ne_nil body.length) (natDigits_not_ws body.length)
  have hne : tag ++ ' ' :: (second ++ ' ' :: (natDigits body.length
      ++ '\r' :: '\n' :: (body ++ t1 :: t2 :: rest))) ≠ [] := by
    cases tag with
    | nil => exact absurd rfl htagne
    | cons a atail => simp
  have hlen : ¬ (body ++ t1 :: t2 :: rest).length < body.length + 2 := by
    simp only [List.length_append, List.length_cons]
    omega
  have htake : (body ++ t1 :: t2 :: rest).take body.length = body :=
    List.take_left body (t1 :: t2 :: rest)
  have hdrop : (body ++ t1 :: t2 :: rest).drop (body.length + 2) = rest := by
    have hs : body ++ t1 :: t2 :: rest = (body ++ [t1, t2]) ++ rest := by simp
    have hl : (body ++ [t1, t2]).length = body.length + 2 := by simp
    rw [hs, ← hl, List.drop_left]
  have hlast : ∀ hp : ([second, natDigits body.length] : List (List Char)) ≠ [],
      [second, natDigits body.length].getLast hp = natDigits body.length := fun _ => rfl
  simp only [read_response, if_neg hne, htakeline, hsplit3, List.getLast?, List.head?,
    hlast, parseUsize_natDigits body.length hn, if_neg hlen, htake, hdrop]

/-- C2: decoding the stream made of the line `ACK OK <n>` (with `n` the
body length) terminated by CRLF, the `n` body bytes and any two trailing
bytes yields `Response{ok := true, body}`; the two trailing bytes are
consumed and discarded without validation and the remainder of the stream
is untouched.  The bound `n < 2 ^ 64` reflects that the body is a Rust
`Vec<u8>` whose length fits the 64-bit `usize` parsed by the decoder. -/
theorem ack_ok_roundtrip (body rest : List Char) (t1 t2 : Char)
    (hn : body.length < 2 ^ 64) :
    read_response ("ACK".data ++ ' ' :: ("OK".data ++ ' ' :: (natDigits body.length
        ++ '\r' :: '\n' :: (body ++ t1 :: t2 :: rest))))
      = .ok (.resp ⟨true, body⟩, rest) := by
  rw [read_response_frame "ACK".data "OK".data body rest t1 t2
    (by decide) (by decide) (by decide) (by decide) hn]
  rw [if_pos (by decide : lowerStr "ACK".data = "ack".data),
    show decide (lowerStr "OK".data = "ok".data) = true from by decide]

/-- Witness for C2 with body `hello` and trailing bytes CRLF. -/
theorem ack_ok_roundtrip_witness :
    read_response ("ACK".data ++ ' ' :: ("OK".data ++ ' ' :: (natDigits "hello".data.length
        ++ '\r' :: '\n' :: ("hello".data ++ '\r' :: '\n' :: []))))
      = .ok (.resp ⟨true, "hello".data⟩, []) :=
  ack_ok_roundtrip "hello".data [] '\r' '\n' (by decide)

/-- C6 as stated is false: the decoder checks only whether the first token
lowercases to `ack`; the well-formed frame `FOO bar 0\r\n\r\n`, whose tag
is neither ACK nor MSG, is decoded as a `Message` with topic `bar` rather
than rejected. -/
theorem non_ack_tag_counterexample :
    read_response "FOO bar 0\r\n\r\n".data
      = .ok (.msg ⟨"bar".data, []⟩, []) := rfl

/-- C6 amended: a well-formed status line whose first token does not
lowercase to `ack` — whether `MSG` or any other tag — is decoded as a
`PushMessage` whose topic is the second token; only a missing token or an
unparsable length field is an unrecoverable decode error. -/
theorem non_ack_tag_is_message (tag topic body rest : List Char) (t1 t2 : Char)
    (htagne : tag ≠ []) (htag : ∀ c ∈ tag, isWS c = false)
    (htopicne : topic ≠ []) (htopic : ∀ c ∈ topic, isWS c = false)
    (hack : lowerStr tag ≠ "ack".data) (hn : body.length < 2 ^ 64) :
    read_response (tag ++ ' ' :: (topic ++ ' ' :: (natDigits body.length
        ++ '\r' :: '\n' :: (body ++ t1 :: t2 :: rest))))
      = .ok (.msg ⟨topic, body⟩, rest) := by
  rw [read_response_frame tag topic body rest t1 t2 htagne htag htopicne htopic hn,
    if_neg hack]

/-- Witness for the amended C6 with tag `FOO`, topic `bar`, body `x`. -/
theorem non_ack_tag_is_message_witness :
    read_response ("FOO".data ++ ' ' :: ("bar".data ++ ' ' :: (natDigits "x".data.length
        ++ '\r' :: '\n' :: ("x".data ++ '\r' :: '\n' :: []))))
      = .ok (.msg ⟨"bar".data, "x".data⟩, []) :=
  non_ack_tag_is_message "FOO".data "bar".data "x".data [] '\r' '\n'
    (by decide) (by decide) (by decide) (by decide) (by decide) (by decide)

/-- JSON values, as `serde_json::Value` models them.  A number carries its
exact rational value plus a flag recording whether serde_json stored the
token as a `u64` (no sign, fraction or exponent, and below `2 ^ 64`),
which is what `Value::as_u64` tests. -/
inductive Json
  | null
  | bool (b : Bool)
  | num (q : ℚ) (u64lit : Bool)
  | str (s : List Char)
  | arr (elems : List Json)
  | obj (fields : List (List Char × Json))

/-- JSON inter-token whitespace. -/
def skipJWS : List Char → List Char
  | [] => []
  | c :: cs => if c = ' ' ∨ c = '\t' ∨ c = '\n' ∨ c = '\r' then skipJWS cs else c :: cs

/-- Leading run of ASCII digits. -/
def takeDigits : List Char → List Char × List Char
  | [] => ([], [])
  | c :: cs =>
    if c.isDigit then
      let p := takeDigits cs
      (c :: p.1, p.2)
    else ([], c :: cs)

/-- Hexadecimal digit value. -/
def hexVal (c : Char) : Option Nat :=
  if c.isDigit then some (c.toNat - 48)
  else if 'a' ≤ c ∧ c ≤ 'f' then some (c.toNat - 87)
  else if 'A' ≤ c ∧ c ≤ 'F' then some (c.toNat - 55)
  else none

/-- Body of a JSON string after the opening quote, with the escapes
serde_json accepts (a `\uXXXX` escape maps to its code unit; surrogate
pairs are not joined, which no claim exercises).  Unescaped control
characters are rejected, as serde_json does. -/
def parseStringBody : Nat → List Char → Option (List Char × List Char)
  | 0, _ => none
  | _ + 1, [] => none
  | fuel + 1, c :: cs =>
    if c = '"' then some ([], cs)
    else if c = '\\' then
      match cs with
      | [] => none
      | e :: cs1 =>
        let esc : Option (Char × List Char) :=
          if e = '"' then some ('"', cs1)
          else if e = '\\' then some ('\\', cs1)
          else if e = '/' then some ('/', cs1)
          else if e = 'b' then some ('\x08', cs1)
          else if e = 'f' then some ('\x0c', cs1)
          else if e = 'n' then some ('\n', cs1)
          else if e = 'r' then some ('\r', cs1)
          else if e = 't' then some ('\t', cs1)
          else if e = 'u' then
            match cs1 with
            | h1 :: h2 :: h3 :: h4 :: cs2 =>
              match hexVal h1, hexVal h2, hexVal h3, hexVal h4 with
              | some v1, some v2, some v3, some v4 =>
                some (Char.ofNat (((v1 * 16 + v2) * 16 + v3) * 16 + v4), cs2)
              | _, _, _, _ => none
            | _ => none
          else none
        match esc with
        | none => none
        | some (d, cs2) =>
          match parseStringBody fuel cs2 with
          | none => none
          | some (out, r) => some (d :: out, r)
    else if c.toNat < 32 then none
    else
      match parseStringBody fuel cs with
      | none => none
      | some (out, r) => some (c :: out, r)

/-- Parse a JSON number token with serde_json's grammar: optional minus,
integer part without redundant leading zeros, optional fraction, optional
exponent.  Returns the exact rational value with the u64-literal flag. -/
def parseNumber (cs : List Char) : Option (Json × List Char) :=
  let sign := match cs with | '-' :: _ => true | _ => false
  let cs1 := match cs with | '-' :: r => r | _ => cs
  match cs1 with
  | [] => none
  | c :: _ =>
    if ¬ c.isDigit then none
    else
      let ip := (takeDigits cs1).1
      let cs2 := (takeDigits cs1).2
      if c = '0' ∧ ip ≠ ['0'] then none
      else
        let hasFrac := match cs2 with | '.' :: _ => true | _ => false
        let fp := match cs2 with | '.' :: r => (takeDigits r).1 | _ => []
        let cs3 := match cs2 with | '.' :: r => (takeDigits r).2 | _ => cs2
        if hasFrac ∧ fp = [] then none
        else
          let hasExp := match cs3 with | 'e' :: _ => true | 'E' :: _ => true | _ => false
          let cs4 := match cs3 with | 'e' :: r => r | 'E' :: r => r | _ => cs3
          let eneg := match cs4 with | '-' :: _ => true | _ => false
          let cs5 := match cs4 with | '-' :: r => r | '+' :: r => r | _ => cs4
          let ep := (takeDigits cs5).1
          let cs6 := (takeDigits cs5).2
          if hasExp ∧ ep = [] then none
          else
            let emag : Nat := digitsToNat ep
            let scaleNum : Nat := if hasExp ∧ ¬ eneg then 10 ^ emag else 1
            let scaleDen : Nat := if hasExp ∧ eneg then 10 ^ emag else 1
            let mag : Nat := digitsToNat (ip ++ fp) * scaleNum
            let den : Nat := 10 ^ fp.length * scaleDen
            let q : ℚ := if sign then -(mkRat (mag : Int) den) else mkRat (mag : Int) den
            let u64lit := !sign && !hasFrac && !hasExp && decide (digitsToNat ip < 2 ^ 64)
            some (.num q u64lit, if hasExp then cs6 else cs3)

/-- Parser mode: a single value, the elements after `[`, or the fields
after an opening brace. -/
inductive PMode
  | value
  | elems
  | fields

/-- Fuel-based parser for the JSON fragment serde_json accepts.  The fuel
bounds recursion depth; `fromStr` passes `length + 1`, which suffices
because every recursive call is preceded by at least one consumed byte.
In `elems`/`fields` mode the result is the `arr`/`obj` of the remaining
elements of the current composite. -/
def parseJ : Nat → PMode → List Char → Option (Json × List Char)
  | 0, _, _ => none
  | fuel + 1, .value, cs =>
    match skipJWS cs with
    | [] => none
    | c :: cs1 =>
      if c = 'n' then
        match cs1 with
        | 'u' :: 'l' :: 'l' :: r => some (.null, r)
        | _ => none
      else if c = 't' then
        match cs1 with
        | 'r' :: 'u' :: 'e' :: r => some (.bool true, r)
        | _ => none
      else if c = 'f' then
        match cs1 with
        | 'a' :: 'l' :: 's' :: 'e' :: r => some (.bool false, r)
        | _ => none
      else if c = '"' then
        match parseStringBody (cs1.length + 1) cs1 with
        | none => none
        | some (s, r) => some (.str s, r)
      else if c = '[' then
        match skipJWS cs1 with
        | ']' :: r => some (.arr [], r)
        | _ => parseJ fuel .elems cs1
      else if c = '\x7b' then
        match skipJWS cs1 with
        | '\x7d' :: r => some (.obj [], r)
        | _ => parseJ fuel .fields cs1
      else parseNumber (c :: cs1)
  | fuel + 1, .elems, cs =>
    match parseJ fuel .value cs with
    | none => none
    | some (v, r) =>
      match skipJWS r with
      | ',' :: r1 =>
        match parseJ fuel .elems r1 with
        | some (.arr vs, r2) => some (.arr (v :: vs), r2)
        | _ => none
      | ']' :: r1 => some (.arr [v], r1)
      | _ => none
  | fuel + 1, .fields, cs =>
    match skipJWS cs with
    | '"' :: cs1 =>
      match parseStringBody (cs1.length + 1) cs1 with
      | none => none
      | some (k, r) =>
        match skipJWS r with
        | ':' :: r1 =>
          match parseJ fuel .value r1 with
          | none => none
          | some (v, r2) =>
            match skipJWS r2 with
            | ',' :: r3 =>
              match parseJ fuel .fields r3 with
              | some (.obj kvs, r4) => some (.obj ((k, v) :: kvs), r4)
              | _ => none
            | '\x7d' :: r3 => some (.obj [(k, v)], r3)
            | _ => none
        | _ => none
    | _ => none

/-- `serde_json::from_str` / `from_slice` for the fragment above: exactly
one JSON value with only whitespace around it. -/
def fromStr (cs : List Char) : Option Json :=
  match parseJ (cs.length + 1) .value cs with
  | none => none
  | some (v, r) => if skipJWS r = [] then some v else none

/-- Last-wins key lookup, matching how `serde_json::Value` folds duplicate
keys when building an object map. -/
def lookupLast (k : List Char) : List (List Char × Json) → Option Json
  | [] => none
  | (k1, v) :: fs =>
    match lookupLast k fs with
    | some r => some r
    | none => if k1 = k then some v else none

namespace Json

/-- `Value::index` with a string key: member of an object, `Null` when
the key is absent or the value is not an object. -/
def get (j : Json) (k : List Char) : Json :=
  match j with
  | .obj fs =>
    match lookupLast k fs with
    | some v => v
    | none => .null
  | _ => .null

/-- `Value::index` with `0`: first element of an array, `Null` otherwise. -/
def idx0 : Json → Json
  | .arr (x :: _) => x
  | _ => .null

/-- `Value::as_u64`: only a number serde_json stored as `u64`. -/
def asU64 : Json → Option Nat
  | .num q u => if u then some q.num.toNat else none
  | _ => none

/-- `Value::as_f64`: any JSON number. -/
def asF64 : Json → Option ℚ
  | .num q _ => some q
  | _ => none

/-- `Value::as_str`: only a JSON string. -/
def asStr : Json → Option (List Char)
  | .str s => some s
  | _ => none

end Json

/-- `serde_json::from_str::<(f64,)>` on an already-parsed value: exactly a
one-element array holding a number. -/
def tupleF64 : Json → Option ℚ
  | .arr [.num q _] => some q
  | _ => none

/-- `(String,)`: exactly a one-element array holding a string. -/
def tupleString : Json → Option (List Char)
  | .arr [.str s] => some s
  | _ => none

/-- `PlayerState` (src/player.rs lines 8-12, duplicated in src/app.rs). -/
inductive PlayerState
  | Stopped
  | Paused
  | Playing
  deriving DecidableEq, Repr

/-- `TryFrom<u64> for PlayerState` (src/player.rs lines 14-25). -/
def PlayerState.tryFrom (v : Nat) : Option PlayerState :=
  if v = 0 then some .Stopped
  else if v = 1 then some .Paused
  else if v = 2 then some .Playing
  else none

/-- `PlayerMetadata` (src/player.rs lines 27-32, duplicated in
src/app.rs). -/
structure PlayerMetadata where
  title : List Char
  artists : List (List Char)
  album : Option (List Char)
  deriving DecidableEq, Repr

/-- `PlayerMetadata::new()` (src/player.rs lines 34-42). -/
def PlayerMetadata.new : PlayerMetadata :=
  { title := "".data, artists := ["".data], album := some "".data }

/-- All elements of a JSON array as strings (serde's `Vec<String>`). -/
def allStrings : List Json → Option (List (List Char))
  | [] => some []
  | .str s :: js =>
    match allStrings js with
    | some r => some (s :: r)
    | none => none
  | _ => none

/-- Occurrences of a key among an object's fields. -/
def countKey (k : List Char) (fs : List (List Char × Json)) : Nat :=
  (fs.filter (fun p => decide (p.1 = k))).length

/-- The derived serde deserializer for `PlayerMetadata`: requires `title`
(a string) and `artists` (an array of strings), treats the `Option` field
`album` as optional (absent or `null` is `None`), ignores unknown fields
and rejects a duplicated known field, as serde's derive does. -/
def metadataOfJson : Json → Option PlayerMetadata
  | .obj fs =>
    if countKey "title".data fs ≤ 1 ∧ countKey "artists".data fs ≤ 1
        ∧ countKey "album".data fs ≤ 1 then
      match lookupLast "title".data fs with
      | some (.str t) =>
        match lookupLast "artists".data fs with
        | some (.arr xs) =>
          match allStrings xs with
          | some arts =>
            match lookupLast "album".data fs with
            | none => some { title := t, artists := arts, album := none }
            | some .null => some { title := t, artists := arts, album := none }
            | some (.str a) => some { title := t, artists := arts, album := some a }
            | some _ => none
          | none => none
        | _ => none
      | _ => none
    else none
  | _ => none

/-- `(PlayerMetadata,)`: a one-element array holding the metadata object. -/
def tupleMetadata : Json → Option PlayerMetadata
  | .arr [j] => metadataOfJson j
  | _ => none

/-- Parse a push payload as `(f64,)` from the raw body. -/
def parseF64Payload (body : List Char) : Option ℚ := (fromStr body).bind tupleF64

/-- Parse a push payload as `(PlayerMetadata,)` from the raw body. -/
def parseMetadataPayload (body : List Char) : Option PlayerMetadata :=
  (fromStr body).bind tupleMetadata

/-- `Duration::from_secs_f64`, which panics when the seconds value is
negative or overflows `Duration`: the seconds field of `Duration` is a
`u64`, so values of `2 ^ 64` seconds or more do not fit.  (NaN and the
infinities also panic in Rust; they have no rational representative.)
In-range values are kept exact rather than rounded to nanoseconds. -/
def durationFromSecs (q : ℚ) : Option ℚ :=
  if q < 0 ∨ 2 ^ 64 ≤ q then none else some q

/-- `AppInner` (src/app.rs lines 176-182): the state-store payload. -/
structure AppInner where
  metadata : PlayerMetadata
  lyric_s : List Char
  progress : Progress
  duration : ℚ
  state : PlayerState
  deriving DecidableEq, Repr

/-- The store as `App::new()` builds it (src/app.rs lines 301-311), with
the progress clock anchored at `t0`. -/
def AppInner.new (t0 : ℚ) : AppInner :=
  { metadata := PlayerMetadata.new, lyric_s := "暂无歌词".data,
    progress := Progress.default t0, duration := 0, state := .Stopped }

/-- `AppInner::on_message` (src/app.rs lines 184-226) at wall-clock
instant `now`.  `String::from_utf8(msg.body).unwrap()` is the identity on
the char-level byte model.  `none` is any of the source's aborts: a JSON
parse `unwrap`, the `as_u64` `unwrap`, `panic!("unknown player state")`,
or a `Duration::from_secs_f64` panic. -/
def on_message (s : AppInner) (msg : Message) (now : ℚ) : Option AppInner :=
  if msg.topic = "player.state_changed".data then
    match fromStr msg.body with
    | none => none
    | some value =>
      match value.idx0.asU64 with
      | none => none
      | some n =>
        match PlayerState.tryFrom n with
        | none => none
        | some st =>
          match st with
          | .Paused => some { s with state := st, progress := s.progress.pause now }
          | .Stopped => some { s with state := st, progress := s.progress.on_seeked 0 now }
          | .Playing => some { s with state := st, progress := s.progress.resume now }
  else if msg.topic = "player.metadata_changed".data then
    match parseMetadataPayload msg.body with
    | none => none
    | some m => some { s with metadata := m, progress := s.progress.on_seeked 0 now }
  else if msg.topic = "player.duration_changed".data then
    match parseF64Payload msg.body with
    | none => none
    | some q =>
      match durationFromSecs q with
      | none => none
      | some d => some { s with duration := d }
  else if msg.topic = "player.seeked".data then
    match parseF64Payload msg.body with
    | none => none
    | some q =>
      match durationFromSecs q with
      | none => none
      | some d => some { s with progress := s.progress.on_seeked d now }
  else if msg.topic = "live_lyric.sentence_changed".data then
    if msg.body.length > 0 then
      match (fromStr msg.body).bind tupleString with
      | none => none
      | some line => some { s with lyric_s := line }
    else some s
  else some s

theorem on_message_metadata_eq (s : AppInner) (body : List Char) (now : ℚ) :
    on_message s ⟨"player.metadata_changed".data, body⟩ now
      = match parseMetadataPayload body with
        | none => none
        | some m => some { s with metadata := m, progress := s.progress.on_seeked 0 now } := rfl

theorem on_message_seeked_eq (s : AppInner) (body : List Char) (now : ℚ) :
    on_message s ⟨"player.seeked".data, body⟩ now
      = match parseF64Payload body with
        | none => none
        | some q =>
          match durationFromSecs q with
          | none => none
          | some d => some { s with progress := s.progress.on_seeked d now } := rfl

theorem on_message_duration_eq (s : AppInner) (body : List Char) (now : ℚ) :
    on_message s ⟨"player.duration_changed".data, body⟩ now
      = match parseF64Payload body with
        | none => none
        | some q =>
          match durationFromSecs q with
          | none => none
          | some d => some { s with duration := d } := rfl

/-- C4: applying a `player.metadata_changed` push with a valid
single-element payload to any current state — in particular one just
written by a full sync — replaces `metadata` wholesale and re-anchors the
progress clock at position 0 via `on_seeked 0` (anchor instant := now,
overriding any previously synced position, last-writer-wins), while the
clock's paused/playing mode and every other field stay unchanged. -/
theorem metadata_changed_replaces (s : AppInner) (body : List Char) (m : PlayerMetadata)
    (now : ℚ) (h : parseMetadataPayload body = some m) :
    on_message s ⟨"player.metadata_changed".data, body⟩ now
      = some
          { s with
            metadata := m,
            progress := { s.progress with ts := now, position := 0 } } := by
  rw [on_message_metadata_eq, h]
  rfl

/-- Witness for C4 on a concrete metadata payload. -/
theorem metadata_changed_replaces_witness :
    on_message (AppInner.new 0) ⟨"player.metadata_changed".data,
        "[\x7b\"title\":\"t\",\"artists\":[\"a\",\"b\"],\"album\":\"x\"\x7d]".data⟩ 7
      = some
          { AppInner.new 0 with
            metadata :=
              { title := "t".data, artists := ["a".data, "b".data], album := some "x".data },
            progress := { (AppInner.new 0).progress with ts := 7, position := 0 } } :=
  metadata_changed_replaces (AppInner.new 0)
    "[\x7b\"title\":\"t\",\"artists\":[\"a\",\"b\"],\"album\":\"x\"\x7d]".data
    { title := "t".data, artists := ["a".data, "b".data], album := some "x".data } 7
    (by with_unfolding_all decide)

/-- C10: `player.seeked` and `player.duration_changed` convert their
payload with `Duration::from_secs_f64`; over the rational fragment (NaN
and the infinities have no rational representative) the application
aborts exactly when the payload is negative or overflows `Duration` —
`2 ^ 64` seconds or more — and succeeds exactly when it is a finite
nonnegative number of seconds within `Duration`'s range. -/
theorem numeric_payload_precondition (s : AppInner) (body : List Char) (q now : ℚ)
    (h : parseF64Payload body = some q) :
    (on_message s ⟨"player.seeked".data, body⟩ now = none ↔ (q < 0 ∨ 2 ^ 64 ≤ q))
    ∧ (on_message s ⟨"player.duration_changed".data, body⟩ now = none
        ↔ (q < 0 ∨ 2 ^ 64 ≤ q)) := by
  rw [on_message_seeked_eq, on_message_duration_eq, h]
  constructor <;>
  · by_cases hq : q < 0 ∨ 2 ^ 64 ≤ q <;> simp [durationFromSecs, hq]

/-- Witness for C10 on the negative payload `[-1]` and the out-of-range
payload `[2e19]` (2e19 s exceeds the `u64` seconds of `Duration`). -/
theorem numeric_payload_precondition_witness :
    (on_message (AppInner.new 0) ⟨"player.seeked".data, "[-1]".data⟩ 3 = none
        ↔ ((-1 : ℚ) < 0 ∨ 2 ^ 64 ≤ (-1 : ℚ)))
    ∧ (on_message (AppInner.new 0) ⟨"player.duration_changed".data, "[2e19]".data⟩ 3 = none
        ↔ ((20000000000000000000 : ℚ) < 0 ∨ 2 ^ 64 ≤ (20000000000000000000 : ℚ))) :=
  ⟨(numeric_payload_precondition (AppInner.new 0) "[-1]".data (-1) 3 (by decide)).1,
   (numeric_payload_precondition (AppInner.new 0) "[2e19]".data 20000000000000000000 3
      (by decide)).2⟩

/-- C7's decode half holds but its application half fails on the code:
`"MSG player.seeked 4\r\n12.5\r\n"` decodes to
`PushMessage{topic := player.seeked, body := "12.5"}`, yet applying that
message aborts — `serde_json::from_str::<(f64,)>` rejects the bare-number
payload `12.5`, which is not a one-element JSON array — instead of
seeking the clock to 12.5 s. -/
theorem seeked_scenario_counterexample :
    read_response "MSG player.seeked 4\r\n12.5\r\n".data
      = .ok (.msg ⟨"player.seeked".data, "12.5".data⟩, [])
    ∧ on_message (AppInner.new 0) ⟨"player.seeked".data, "12.5".data⟩ 3 = none := by
  constructor
  · rfl
  · with_unfolding_all decide

/-- C7 amended: the frame decodes exactly as claimed, but a push payload
is a positional JSON array, so applying the decoded `body = "12.5"`
message aborts; with the array payload (frame
`MSG player.seeked 6\r\n[12.5]\r\n`) the application re-anchors the
progress clock at position 12.5 s. -/
theorem seeked_scenario_amended (s : AppInner) (now : ℚ) :
    read_response "MSG player.seeked 6\r\n[12.5]\r\n".data
      = .ok (.msg ⟨"player.seeked".data, "[12.5]".data⟩, [])
    ∧ on_message s ⟨"player.seeked".data, "[12.5]".data⟩ now
        = some { s with progress := { s.progress with ts := now, position := 25/2 } } := by
  constructor
  · rfl
  · with_unfolding_all rfl

/-- Outcome of one `App::sync_player_status` call, carrying the stored
state visible when the call ends: `ok` is normal completion, `panicked`
an `unwrap` abort, and `stuck` the `_` arm of the state match, which
calls `self.inner.lock()` while the guard from line 328 is still held
(src/app.rs line 345) and therefore deadlocks or panics without ever
completing. -/
inductive SyncOutcome
  | ok (s : AppInner)
  | panicked (s : AppInner)
  | stuck (s : AppInner)
  deriving DecidableEq, Repr

/-- The stored state when the call ends (or hangs). -/
def SyncOutcome.stored : SyncOutcome → AppInner
  | .ok s => s
  | .panicked s => s
  | .stuck s => s

/-- Whether the call completed normally. -/
def SyncOutcome.isOk : SyncOutcome → Bool
  | .ok _ => true
  | _ => false

/-- Whether the call hit the re-entrant lock. -/
def SyncOutcome.isStuck : SyncOutcome → Bool
  | .stuck _ => true
  | _ => false

/-- The pre-lock phase of `App::sync_player_status` (src/app.rs lines
317-326): `send_request` result (`none` models a connection/read failure,
whose `Err` the source `unwrap`s), top-level JSON parse, then the
`duration`, `position`, `title`, `album_name`, `artists_name`
extractions in source order, with `Duration::from_secs_f64` applied
immediately.  All of this runs before the lock is taken and before any
store mutation.  The source reads `value["state"]` only after mutating
the store; the model extracts that pure lookup here and branches on it
after the mutation, which is observationally identical.  `resp.ok` is
never examined, as in the source. -/
def syncExtract (reqResult : Option Response) :
    Option (ℚ × ℚ × PlayerMetadata × Option (List Char)) :=
  match reqResult with
  | none => none
  | some resp =>
    match fromStr resp.body with
    | none => none
    | some value =>
      let song := value.get "song".data
      match (value.get "duration".data).asF64 with
      | none => none
      | some dq =>
        match durationFromSecs dq with
        | none => none
        | some duration =>
          match (value.get "position".data).asF64 with
          | none => none
          | some pq =>
            match durationFromSecs pq with
            | none => none
            | some position =>
              match (song.get "title".data).asStr, (song.get "album_name".data).asStr,
                  (song.get "artists_name".data).asStr with
              | some title, some album, some artists =>
                some (duration, position,
                  { title := title, album := some album, artists := [artists] },
                  (value.get "state".data).asStr)
              | _, _, _ => none

/-- `App::sync_player_status` (src/app.rs lines 316-348): after the
pre-lock extractions, metadata, progress anchor and duration are written
under the lock; only then is the `state` string extracted and matched,
freezing or releasing the clock.  An unrecognized state string reaches
the re-entrant `self.inner.lock()` of line 345 while the guard from line
328 is still held, so the call never completes (`stuck`). -/
def sync_player_status (s : AppInner) (reqResult : Option Response) (now : ℚ) : SyncOutcome :=
  match syncExtract reqResult with
  | none => .panicked s
  | some (duration, position, metadata, none) =>
    .panicked
      { s with
        metadata := metadata,
        progress := s.progress.on_seeked position now,
        duration := duration }
  | some (duration, position, metadata, some st) =>
    let s3 : AppInner :=
      { s with
        metadata := metadata,
        progress := s.progress.on_seeked position now,
        duration := duration }
    if st = "paused".data then
      .ok { s3 with state := .Paused, progress := s3.progress.pause now }
    else if st = "stopped".data then
      .ok { s3 with state := .Stopped, progress := s3.progress.pause now }
    else if st = "playing".data then
      .ok { s3 with state := .Playing, progress := s3.progress.resume now }
    else .stuck s3

/-- C8 amended: when `sync_player_status` fails, either the failure came
before the lock was taken — no response, unparsable response JSON, or a
failed extraction of `duration`, `position` or a song string — and every
stored field is exactly as before the call, or the `state`-string
extraction failed after the store was already updated, in which case
metadata, the progress anchor (re-anchored by `on_seeked` at `now`) and
duration already carry the response's values while the lyric line, the
`PlayerState` field and the clock's paused flag are unchanged. -/
theorem sync_failure_atomicity (s : AppInner) (reqResult : Option Response) (now : ℚ)
    (s1 : AppInner) (h : sync_player_status s reqResult now = .panicked s1) :
    s1 = s ∨
    ∃ m p d,
      s1 = { s with metadata := m, progress := s.progress.on_seeked p now, duration := d } := by
  unfold sync_player_status at h
  cases hx : syncExtract reqResult with
  | none =>
    simp only [hx] at h
    cases h
    exact Or.inl rfl
  | some quad =>
    obtain ⟨duration, position, metadata, stStr⟩ := quad
    cases stStr with
    | none =>
      simp only [hx] at h
      cases h
      exact Or.inr ⟨_, _, _, rfl⟩
    | some st =>
      simp only [hx] at h
      by_cases h1 : st = "paused".data
      · rw [if_pos h1] at h; cases h
      · rw [if_neg h1] at h
        by_cases h2 : st = "stopped".data
        · rw [if_pos h2] at h; cases h
        · rw [if_neg h2] at h
          by_cases h3 : st = "playing".data
          · rw [if_pos h3] at h; cases h
          · rw [if_neg h3] at h; cases h

/-- A status response whose JSON is valid but has no `state` field. -/
def syncRespNoState : Response :=
  ⟨true, ("\x7b\"song\":\x7b\"title\":\"a\",\"album_name\":\"b\",\"artists_name\":\"c\"\x7d,"
      ++ "\"duration\":1,\"position\":2\x7d").data⟩

set_option maxRecDepth 2048 in
/-- C8 as stated is false: on a response whose JSON parses but lacks the
`state` field, `sync_player_status` fails — the
`value["state"].as_str().unwrap()` panic, a response-JSON extraction
failure occurring before the store's `state` field is mutated — yet the
stored metadata (with the progress anchor and duration) has already been
overwritten, so not every field is left as it was before the call. -/
theorem sync_failure_counterexample :
    (sync_player_status (AppInner.new 0) (some syncRespNoState) 7).isOk = false
    ∧ (sync_player_status (AppInner.new 0) (some syncRespNoState) 7).stored.state
        = (AppInner.new 0).state
    ∧ (sync_player_status (AppInner.new 0) (some syncRespNoState) 7).stored.metadata.title
        = "a".data
    ∧ (AppInner.new 0).metadata.title = "".data := by
  with_unfolding_all decide

set_option maxRecDepth 4096 in
/-- Witness for the amended C8 at the no-`state` response. -/
theorem sync_failure_atomicity_witness :
    ({ AppInner.new 0 with
        metadata := { title := "a".data, artists := ["c".data], album := some "b".data },
        progress := (AppInner.new 0).progress.on_seeked 2 7,
        duration := 1 } : AppInner) = AppInner.new 0 ∨
    ∃ m p d,
      ({ AppInner.new 0 with
          metadata := { title := "a".data, artists := ["c".data], album := some "b".data },
          progress := (AppInner.new 0).progress.on_seeked 2 7,
          duration := 1 } : AppInner)
        = { AppInner.new 0 with
            metadata := m, progress := (AppInner.new 0).progress.on_seeked p 7, duration := d } :=
  sync_failure_atomicity (AppInner.new 0) (some syncRespNoState) 7
    { AppInner.new 0 with
      metadata := { title := "a".data, artists := ["c".data], album := some "b".data },
      progress := (AppInner.new 0).progress.on_seeked 2 7,
      duration := 1 }
    (by
      have hsx : syncExtract (some syncRespNoState)
          = some (1, 2,
              { title := "a".data, artists := ["c".data], album := some "b".data }, none) := by
        with_unfolding_all decide
      unfold sync_player_status
      rw [hsx])

/-- A status response that is valid except for an unrecognized `state`. -/
def syncRespUnknownState : Response :=
  ⟨true, ("\x7b\"song\":\x7b\"title\":\"a\",\"album_name\":\"b\",\"artists_name\":\"c\"\x7d,"
      ++ "\"duration\":1,\"position\":2,\"state\":\"banana\"\x7d").data⟩

/-- A store whose player state is `Playing`, to make the missing
`Stopped` write observable. -/
def appPlaying : AppInner := { AppInner.new 0 with state := .Playing }

set_option maxRecDepth 2048 in
/-- C5 describes the intent, but the code has a slip: the `_` arm for an
unrecognized state string runs `self.inner.lock().unwrap().state = Stopped`
while the `MutexGuard` taken at src/app.rs line 328 is still alive, so
the second `lock()` deadlocks or panics and the call never completes.
The stored `PlayerState` keeps its previous value (`Playing` here, not
`Stopped`); metadata, anchor and duration were already updated, and
`pause`/`resume` were indeed not called (the paused flag is untouched). -/
theorem sync_unknown_state_deadlocks :
    (sync_player_status appPlaying (some syncRespUnknownState) 7).isStuck = true
    ∧ (sync_player_status appPlaying (some syncRespUnknownState) 7).isOk = false
    ∧ (sync_player_status appPlaying (some syncRespUnknownState) 7).stored.state
        = PlayerState.Playing
    ∧ (sync_player_status appPlaying (some syncRespUnknownState) 7).stored.progress.paused
        = appPlaying.progress.paused := by
  with_unfolding_all decide
